import Mathlib

/-!
Shallow embedding of the sigmax MPSC queue (src/sigmax/mpsc_queue.hpp) and of
the benchmark result sink (benchmarks/mpsc_queue_benchmark.cpp), with proofs
about the queue protocol in its single-threaded semantics.

Modelling conventions:
* std::size_t indices (head, tail, sequence words, counters) are modelled as
  Nat. They increase monotonically and never reach 2^64 in a feasible run, so
  machine wraparound is not modelled; the int64_t casts in the diff
  computation are modelled as the exact Int subtraction, which agrees with the
  source for all values below 2^63.
* Operations are modelled in their single-threaded (sequential) semantics: a
  compare_exchange_strong on m_head (resp. m_tail) always succeeds when
  attempted, because no other thread can have changed the index between its
  load and the CAS.
* A result of none models abnormal termination: std::array::at throwing
  std::out_of_range or an out-of-bounds plain index (possible only for
  capacity 0, where pos % 0 is itself undefined in C++), or the retry loop
  spinning forever (a diff > 0 observation never resolves when no other
  thread is running, since the loop re-reads unchanged state).
-/

namespace Sigmax

/-- QueueState from mpsc_queue.hpp. -/
inductive QueueState : Type where
  | SUCCESS : QueueState
  | QUEUE_IS_EMPTY : QueueState
  | QUEUE_IS_FULL : QueueState
deriving Repr, DecidableEq

/-- Model of std::expected with value type T and error type E, as returned
by Pop. -/
inductive Expected (T E : Type) : Type where
  | val : T → Expected T E
  | err : E → Expected T E
deriving Repr, DecidableEq

/-- Cell from mpsc_queue.hpp: a payload slot and an atomic sequence word. -/
structure Cell (T : Type) : Type where
  data : T
  sequence : Nat
deriving Repr, DecidableEq

/-- State of MpscQueue<T, C>: m_buffer_mask (set to C by the constructor),
the cell array m_data, and the atomic words m_head, m_tail, m_pushCount,
m_popCount. -/
structure MpscQueue (T : Type) : Type where
  buffer_mask : Nat
  data : List (Cell T)
  head : Nat
  tail : Nat
  pushCount : Nat
  popCount : Nat
deriving Repr, DecidableEq

/-- The constructor MpscQueue() of MpscQueue<T, C>: m_buffer_mask := C, the
cell array value-initialized (every payload is the default value d of T) and
then cell i given sequence i; head, tail and both counters start at 0. The
constructor checks nothing about C. -/
def mkMpscQueue (T : Type) (C : Nat) (d : T) : MpscQueue T :=
  { buffer_mask := C
    data := (List.range C).map (fun i => { data := d, sequence := i })
    head := 0
    tail := 0
    pushCount := 0
    popCount := 0 }

/-- PushBack(element) in its single-threaded semantics. pos is loaded from
m_head; the cell at pos % m_buffer_mask is read and diff = seq - pos computed
in int64_t. diff = 0: the CAS succeeds (no other thread), the element is
stored, the sequence set to pos + 1 and m_pushCount incremented. diff < 0:
QUEUE_IS_FULL is returned with no state change. diff > 0 cannot resolve with
a single thread (the loop re-reads the same head), modelled as none. -/
def PushBack {T : Type} (q : MpscQueue T) (element : T) : Option (QueueState × MpscQueue T) :=
  let pos := q.head
  (q.data[pos % q.buffer_mask]?).bind fun cell =>
    let diff : Int := (cell.sequence : Int) - (pos : Int)
    if diff = 0 then
      some (QueueState.SUCCESS,
        { q with
          head := pos + 1
          data := q.data.set (pos % q.buffer_mask) { data := element, sequence := pos + 1 }
          pushCount := q.pushCount + 1 })
    else if diff < 0 then
      some (QueueState.QUEUE_IS_FULL, q)
    else
      none

/-- The overload void PushBack(const std::vector<T> elements) from
mpsc_queue.hpp has an empty body: it touches nothing and, returning void,
yields no outcome indication. The model returns the unchanged state. -/
def PushBackVector {T : Type} (q : MpscQueue T) (elements : List T) : MpscQueue T :=
  q

/-- Pop() in its single-threaded semantics. pos is loaded from m_tail; the
cell at pos % m_buffer_mask is read and diff = seq - (pos + 1) computed in
int64_t. diff = 0: the CAS succeeds, the payload is returned, the sequence
set to pos + m_buffer_mask and m_popCount incremented. diff < 0:
QUEUE_IS_EMPTY is returned with no state change. diff > 0 is modelled as
none (single-threaded spin). -/
def Pop {T : Type} (q : MpscQueue T) : Option (Expected T QueueState × MpscQueue T) :=
  let pos := q.tail
  (q.data[pos % q.buffer_mask]?).bind fun cell =>
    let diff : Int := (cell.sequence : Int) - ((pos : Int) + 1)
    if diff = 0 then
      some (Expected.val cell.data,
        { q with
          tail := pos + 1
          data := q.data.set (pos % q.buffer_mask) { cell with sequence := pos + q.buffer_mask }
          popCount := q.popCount + 1 })
    else if diff < 0 then
      some (Expected.err QueueState.QUEUE_IS_EMPTY, q)
    else
      none

/-- The sequence word of the cell at physical slot j, when the slot exists. -/
def seqAt {T : Type} (q : MpscQueue T) (j : Nat) : Option Nat :=
  (q.data[j]?).map Cell.sequence

/-- Run a list of PushBack calls in order, collecting each outcome; none
records abnormal termination, at which point the run stops. -/
def runPushes {T : Type} (q : MpscQueue T) : List T → List (Option QueueState) × MpscQueue T
  | [] => ([], q)
  | x :: rest =>
    match PushBack q x with
    | none => ([none], q)
    | some (r, q') =>
      let (rs, qf) := runPushes q' rest
      (some r :: rs, qf)

/-- Run n Pop calls in order, collecting each outcome; none records abnormal
termination, at which point the run stops. -/
def runPops {T : Type} (q : MpscQueue T) : Nat → List (Option (Expected T QueueState)) × MpscQueue T
  | 0 => ([], q)
  | n + 1 =>
    match Pop q with
    | none => ([none], q)
    | some (r, q') =>
      let (rs, qf) := runPops q' n
      (some r :: rs, qf)

/-- One fill/overflow/drain lap on a capacity-16 queue: push the values
0..15, then push 10 and 11 into the full queue, then pop 18 times.
Returns the push outcomes, the pop outcomes and the final state. -/
def lapC16 (q : MpscQueue Nat) : List (Option QueueState) × List (Option (Expected Nat QueueState)) × MpscQueue Nat :=
  let pr := runPushes q (List.range 16 ++ [10, 11])
  let qr := runPops pr.2 18
  (pr.1, qr.1, qr.2)

/-- The push outcomes one lap must produce: 16 SUCCESS then 2 QUEUE_IS_FULL. -/
def lapC16PushResults : List (Option QueueState) :=
  List.replicate 16 (some QueueState.SUCCESS) ++
    [some QueueState.QUEUE_IS_FULL, some QueueState.QUEUE_IS_FULL]

/-- The pop outcomes one lap must produce: 0..15 then 2 QUEUE_IS_EMPTY. -/
def lapC16PopResults : List (Option (Expected Nat QueueState)) :=
  (List.range 16).map (fun i => some (Expected.val i)) ++
    [some (Expected.err QueueState.QUEUE_IS_EMPTY), some (Expected.err QueueState.QUEUE_IS_EMPTY)]

/-- C1: on a capacity-8 queue used by a single thread, eight PushBack calls
with values 0..7 all return SUCCESS, eight Pop calls return 0,1,2,3,4,5,6,7
in that order, and the ninth Pop returns QUEUE_IS_EMPTY. -/
theorem capacity8_fill_drain :
    (runPushes (mkMpscQueue Nat 8 0) [0, 1, 2, 3, 4, 5, 6, 7]).1 =
      List.replicate 8 (some QueueState.SUCCESS) ∧
    (runPops (runPushes (mkMpscQueue Nat 8 0) [0, 1, 2, 3, 4, 5, 6, 7]).2 9).1 =
      [some (Expected.val 0), some (Expected.val 1), some (Expected.val 2),
       some (Expected.val 3), some (Expected.val 4), some (Expected.val 5),
       some (Expected.val 6), some (Expected.val 7),
       some (Expected.err QueueState.QUEUE_IS_EMPTY)] := by
  decide

/-- C2: on a capacity-16 queue used by a single thread, 16 pushes of 0..15
all return SUCCESS, the next two pushes return QUEUE_IS_FULL, 16 pops return
0..15 in order, the next two pops return QUEUE_IS_EMPTY, and running the
whole fill/overflow/drain cycle a second time from the resulting state
produces exactly the same outcome sequences. -/
theorem capacity16_two_identical_laps :
    (lapC16 (mkMpscQueue Nat 16 0)).1 = lapC16PushResults ∧
    (lapC16 (mkMpscQueue Nat 16 0)).2.1 = lapC16PopResults ∧
    (lapC16 (lapC16 (mkMpscQueue Nat 16 0)).2.2).1 = lapC16PushResults ∧
    (lapC16 (lapC16 (mkMpscQueue Nat 16 0)).2.2).2.1 = lapC16PopResults := by
  decide

/-- C3: whenever PushBack returns QUEUE_IS_FULL, the whole queue state —
head, tail, every cell payload and sequence word, and both counters — is
exactly as before the call. -/
theorem PushBack_full_leaves_queue_unchanged {T : Type} (q : MpscQueue T) (x : T)
    (q' : MpscQueue T) (h : PushBack q x = some (QueueState.QUEUE_IS_FULL, q')) :
    q' = q := by
  cases hg : q.data[q.head % q.buffer_mask]? with
  | none => simp [PushBack, hg] at h
  | some cell =>
    simp only [PushBack, hg, Option.some_bind] at h
    split at h
    · simp at h
    · split at h
      · simp only [Option.some.injEq, Prod.mk.injEq, true_and] at h
        exact h.symm
      · exact absurd h (by simp)

/-- Witness for C3: a concrete full capacity-2 queue on which PushBack 99
returns QUEUE_IS_FULL and the state is returned unchanged. -/
theorem PushBack_full_leaves_queue_unchanged_witness :
    (⟨2, [⟨10, 1⟩, ⟨11, 2⟩], 2, 0, 2, 0⟩ : MpscQueue Nat) =
      (⟨2, [⟨10, 1⟩, ⟨11, 2⟩], 2, 0, 2, 0⟩ : MpscQueue Nat) :=
  PushBack_full_leaves_queue_unchanged
    (⟨2, [⟨10, 1⟩, ⟨11, 2⟩], 2, 0, 2, 0⟩ : MpscQueue Nat) 99
    (⟨2, [⟨10, 1⟩, ⟨11, 2⟩], 2, 0, 2, 0⟩ : MpscQueue Nat) (by decide)

/-- C10: whenever Pop returns QUEUE_IS_EMPTY, the whole queue state — head,
tail, every cell payload and sequence word, and both counters — is exactly
as before the call. -/
theorem Pop_empty_leaves_queue_unchanged {T : Type} (q : MpscQueue T)
    (q' : MpscQueue T)
    (h : Pop q = some (Expected.err QueueState.QUEUE_IS_EMPTY, q')) :
    q' = q := by
  cases hg : q.data[q.tail % q.buffer_mask]? with
  | none => simp [Pop, hg] at h
  | some cell =>
    simp only [Pop, hg, Option.some_bind] at h
    split at h
    · simp at h
    · split at h
      · simp only [Option.some.injEq, Prod.mk.injEq, true_and] at h
        exact h.symm
      · exact absurd h (by simp)

/-- Witness for C10: a concrete freshly constructed capacity-2 queue on which
Pop returns QUEUE_IS_EMPTY and the state is returned unchanged. -/
theorem Pop_empty_leaves_queue_unchanged_witness :
    (⟨2, [⟨0, 0⟩, ⟨0, 1⟩], 0, 0, 0, 0⟩ : MpscQueue Nat) =
      (⟨2, [⟨0, 0⟩, ⟨0, 1⟩], 0, 0, 0, 0⟩ : MpscQueue Nat) :=
  Pop_empty_leaves_queue_unchanged
    (⟨2, [⟨0, 0⟩, ⟨0, 1⟩], 0, 0, 0, 0⟩ : MpscQueue Nat)
    (⟨2, [⟨0, 0⟩, ⟨0, 1⟩], 0, 0, 0, 0⟩ : MpscQueue Nat) (by decide)

/-- C9: the vector overload of PushBack has an empty body — for every queue
state and every element vector it stores nothing, leaves head, tail, every
cell and both telemetry counters unchanged, and produces no outcome value. -/
theorem PushBackVector_is_noop {T : Type} (q : MpscQueue T) (elements : List T) :
    (PushBackVector q elements).head = q.head ∧
    (PushBackVector q elements).tail = q.tail ∧
    (PushBackVector q elements).data = q.data ∧
    (PushBackVector q elements).pushCount = q.pushCount ∧
    (PushBackVector q elements).popCount = q.popCount ∧
    PushBackVector q elements = q :=
  ⟨rfl, rfl, rfl, rfl, rfl, rfl⟩

/-- Counterexample to C4: nothing is rejected at construction. Capacity 1,
capacity 3 (not a power of two) and capacity 0 all construct successfully,
and the capacity-1 and capacity-3 queues are operational, as the constructor
of MpscQueue<T, C> contains no check on C. -/
theorem construction_rejects_nothing :
    mkMpscQueue Nat 1 0 = (⟨1, [⟨0, 0⟩], 0, 0, 0, 0⟩ : MpscQueue Nat) ∧
    PushBack (mkMpscQueue Nat 1 0) 42 =
      some (QueueState.SUCCESS, (⟨1, [⟨42, 1⟩], 1, 0, 1, 0⟩ : MpscQueue Nat)) ∧
    mkMpscQueue Nat 3 0 =
      (⟨3, [⟨0, 0⟩, ⟨0, 1⟩, ⟨0, 2⟩], 0, 0, 0, 0⟩ : MpscQueue Nat) ∧
    PushBack (mkMpscQueue Nat 3 0) 7 =
      some (QueueState.SUCCESS, (⟨3, [⟨7, 1⟩, ⟨0, 1⟩, ⟨0, 2⟩], 1, 0, 1, 0⟩ : MpscQueue Nat)) ∧
    mkMpscQueue Nat 0 0 = (⟨0, [], 0, 0, 0, 0⟩ : MpscQueue Nat) := by
  decide

/-- C4 as amended: the constructor validates nothing and rejects no
capacity. For every capacity C — including 0, 1 and non-powers-of-two — it
succeeds, setting m_buffer_mask = C, cell i to sequence i with the default
payload, and head, tail and both counters to 0. -/
theorem construction_is_unconditional (T : Type) (C : Nat) (d : T) :
    (mkMpscQueue T C d).buffer_mask = C ∧
    (mkMpscQueue T C d).data = (List.range C).map (fun i => { data := d, sequence := i }) ∧
    (mkMpscQueue T C d).head = 0 ∧
    (mkMpscQueue T C d).tail = 0 ∧
    (mkMpscQueue T C d).pushCount = 0 ∧
    (mkMpscQueue T C d).popCount = 0 :=
  ⟨rfl, rfl, rfl, rfl, rfl, rfl⟩

/-- Queue states reachable from a freshly constructed queue of capacity C
with default payload d by any finite sequence of completed PushBack and Pop
calls (calls that return, with any outcome). -/
inductive Reachable {T : Type} (C : Nat) (d : T) : MpscQueue T → Prop where
  | start : Reachable C d (mkMpscQueue T C d)
  | step_push {q q' : MpscQueue T} {x : T} {r : QueueState} :
      Reachable C d q → PushBack q x = some (r, q') → Reachable C d q'
  | step_pop {q q' : MpscQueue T} {r : Expected T QueueState} :
      Reachable C d q → Pop q = some (r, q') → Reachable C d q'

/-- A completed PushBack never changes m_buffer_mask. -/
theorem PushBack_buffer_mask {T : Type} {q : MpscQueue T} {x : T} {r : QueueState}
    {q' : MpscQueue T} (h : PushBack q x = some (r, q')) :
    q'.buffer_mask = q.buffer_mask := by
  cases hg : q.data[q.head % q.buffer_mask]? with
  | none => simp [PushBack, hg] at h
  | some cell =>
    simp only [PushBack, hg, Option.some_bind] at h
    split at h
    · cases h
      rfl
    · split at h
      · cases h
        rfl
      · exact absurd h (by simp)

/-- A completed Pop never changes m_buffer_mask. -/
theorem Pop_buffer_mask {T : Type} {q : MpscQueue T} {r : Expected T QueueState}
    {q' : MpscQueue T} (h : Pop q = some (r, q')) :
    q'.buffer_mask = q.buffer_mask := by
  cases hg : q.data[q.tail % q.buffer_mask]? with
  | none => simp [Pop, hg] at h
  | some cell =>
    simp only [Pop, hg, Option.some_bind] at h
    split at h
    · cases h
      rfl
    · split at h
      · cases h
        rfl
      · exact absurd h (by simp)

/-- On every reachable state m_buffer_mask still holds the capacity C. -/
theorem Reachable.buffer_mask_eq {T : Type} {C : Nat} {d : T} {q : MpscQueue T}
    (hq : Reachable C d q) : q.buffer_mask = C := by
  induction hq with
  | start => rfl
  | step_push _ h ih => rw [PushBack_buffer_mask h, ih]
  | step_pop _ h ih => rw [Pop_buffer_mask h, ih]

/-- Two logical positions inside one length-C window that map to the same
physical slot are equal. -/
theorem window_mod_inj {C t a b : Nat} (ha1 : t ≤ a) (ha2 : a < t + C)
    (hb1 : t ≤ b) (hb2 : b < t + C) (hmod : a % C = b % C) : a = b := by
  have hC : 0 < C := by omega
  have habs : |(b : Int) - (a : Int)| < (C : Int) := by
    rw [abs_lt]
    omega
  exact Nat.ModEq.eq_of_abs_lt hmod habs

/-- Sequential-state invariant of a capacity-C queue: m_buffer_mask holds C,
the cell array has C cells, tail ≤ head ≤ tail + C, and for every logical
position p of the window [tail, tail + C) the cell at slot p % C carries
sequence p + 1 when position p holds a committed un-popped element
(p < head) and sequence p otherwise (armed for the future push at p). -/
def Inv {T : Type} (C : Nat) (q : MpscQueue T) : Prop :=
  q.buffer_mask = C ∧
  q.data.length = C ∧
  q.tail ≤ q.head ∧
  q.head ≤ q.tail + C ∧
  ∀ p : Nat, q.tail ≤ p → p < q.tail + C →
    seqAt q (p % C) = some (if p < q.head then p + 1 else p)

/-- A freshly constructed queue satisfies the invariant. -/
theorem inv_mk (T : Type) (C : Nat) (d : T) : Inv C (mkMpscQueue T C d) := by
  refine ⟨rfl, by simp [mkMpscQueue], Nat.le_refl 0, by simp [mkMpscQueue], ?_⟩
  intro p hp1 hp2
  have hpC : p < C := by simpa [mkMpscQueue] using hp2
  have hmod : p % C = p := Nat.mod_eq_of_lt hpC
  simp [seqAt, mkMpscQueue, hmod, hpC]

/-- A successful seqAt observation names a cell of the array. -/
theorem seqAt_eq_some {T : Type} {q : MpscQueue T} {j s : Nat} (h : seqAt q j = some s) :
    ∃ c : Cell T, q.data[j]? = some c ∧ c.sequence = s := by
  unfold seqAt at h
  cases hg : q.data[j]? with
  | none => rw [hg] at h; exact absurd h (by simp)
  | some c =>
    rw [hg] at h
    exact ⟨c, rfl, by simpa using h⟩

/-- Evaluation of PushBack on an invariant state that is not full: the CAS
succeeds at position head, the element is stored into slot head % C with
sequence head + 1, head advances and the push counter increments. -/
theorem push_eval_notfull {T : Type} {C : Nat} {q : MpscQueue T} (x : T)
    (hInv : Inv C q) (hlt : q.head < q.tail + C) :
    PushBack q x = some (QueueState.SUCCESS,
      { q with
        head := q.head + 1
        data := q.data.set (q.head % C) { data := x, sequence := q.head + 1 }
        pushCount := q.pushCount + 1 }) := by
  obtain ⟨hbm, hlen, hth, hht, hseq⟩ := hInv
  have hs := hseq q.head hth hlt
  rw [if_neg (lt_irrefl q.head)] at hs
  obtain ⟨cell, hcell, hcseq⟩ := seqAt_eq_some hs
  simp only [PushBack, hbm, hcell, Option.some_bind]
  rw [if_pos (by rw [hcseq]; exact sub_self _)]

/-- Evaluation of PushBack on an invariant full state (head = tail + C) with
capacity at least 2: the observed sequence is tail + 1, the diff is 1 - C < 0
and QUEUE_IS_FULL is returned with the state unchanged. -/
theorem push_eval_full {T : Type} {C : Nat} {q : MpscQueue T} (x : T) (hC : 2 ≤ C)
    (hInv : Inv C q) (hfull : q.head = q.tail + C) :
    PushBack q x = some (QueueState.QUEUE_IS_FULL, q) := by
  obtain ⟨hbm, hlen, hth, hht, hseq⟩ := hInv
  have hs := hseq q.tail (Nat.le_refl _) (by omega)
  rw [if_pos (by omega)] at hs
  obtain ⟨cell, hcell, hcseq⟩ := seqAt_eq_some hs
  have hslot : q.head % C = q.tail % C := by
    rw [hfull]
    exact Nat.add_mod_right q.tail C
  simp only [PushBack, hbm, hslot, hcell, Option.some_bind]
  rw [if_neg (by rw [hcseq, hfull]; push_cast; omega),
    if_pos (by rw [hcseq, hfull]; push_cast; omega)]

/-- Evaluation of Pop on an invariant empty state (head = tail): the observed
sequence is tail, the diff is -1 and QUEUE_IS_EMPTY is returned with the
state unchanged. -/
theorem pop_eval_empty {T : Type} {C : Nat} {q : MpscQueue T}
    (hInv : Inv C q) (hC : 0 < C) (hempty : q.head = q.tail) :
    Pop q = some (Expected.err QueueState.QUEUE_IS_EMPTY, q) := by
  obtain ⟨hbm, hlen, hth, hht, hseq⟩ := hInv
  have hs := hseq q.tail (Nat.le_refl _) (by omega)
  rw [if_neg (by omega)] at hs
  obtain ⟨cell, hcell, hcseq⟩ := seqAt_eq_some hs
  simp only [Pop, hbm, hcell, Option.some_bind]
  rw [if_neg (by rw [hcseq]; omega), if_pos (by rw [hcseq]; omega)]

/-- Evaluation of Pop on an invariant non-empty state: the CAS succeeds at
position tail, the payload of slot tail % C is returned, the slot is re-armed
with sequence tail + C, tail advances and the pop counter increments. -/
theorem pop_eval_nonempty {T : Type} {C : Nat} {q : MpscQueue T}
    (hInv : Inv C q) (hC : 0 < C) (hne : q.tail < q.head) :
    ∃ cell : Cell T, q.data[q.tail % C]? = some cell ∧
      Pop q = some (Expected.val cell.data,
        { q with
          tail := q.tail + 1
          data := q.data.set (q.tail % C) { cell with sequence := q.tail + C }
          popCount := q.popCount + 1 }) := by
  obtain ⟨hbm, hlen, hth, hht, hseq⟩ := hInv
  have hs := hseq q.tail (Nat.le_refl _) (by omega)
  rw [if_pos hne] at hs
  obtain ⟨cell, hcell, hcseq⟩ := seqAt_eq_some hs
  refine ⟨cell, hcell, ?_⟩
  simp only [Pop, hbm, hcell, Option.some_bind]
  rw [if_pos (by rw [hcseq]; push_cast; omega)]

/-- A completed PushBack preserves the invariant (capacity at least 2). -/
theorem inv_push {T : Type} {C : Nat} (hC : 2 ≤ C) {q : MpscQueue T} {x : T}
    {r : QueueState} {q' : MpscQueue T} (hInv : Inv C q)
    (h : PushBack q x = some (r, q')) : Inv C q' := by
  obtain ⟨hbm, hlen, hth, hht, hseq⟩ := hInv
  by_cases hlt : q.head < q.tail + C
  · rw [push_eval_notfull x ⟨hbm, hlen, hth, hht, hseq⟩ hlt] at h
    injection h with h1
    injection h1 with hr hq'
    subst hq'
    refine ⟨hbm, by rw [List.length_set]; exact hlen,
      show q.tail ≤ q.head + 1 by omega,
      show q.head + 1 ≤ q.tail + C by omega, ?_⟩
    intro p hp1 hp2
    have hp1' : q.tail ≤ p := hp1
    have hp2' : p < q.tail + C := hp2
    by_cases hph : p = q.head
    · subst hph
      have hidx : q.head % C < q.data.length := by
        rw [hlen]
        exact Nat.mod_lt _ (by omega)
      unfold seqAt
      show ((q.data.set (q.head % C) _)[q.head % C]?).map _ = _
      rw [List.getElem?_set_eq_of_lt _ hidx]
      show _ = some (if q.head < q.head + 1 then q.head + 1 else q.head)
      rw [if_pos (Nat.lt_succ_self q.head)]
      rfl
    · have hslot : q.head % C ≠ p % C := fun hcon =>
        hph (window_mod_inj hp1' hp2' hth hlt hcon.symm)
      unfold seqAt
      show ((q.data.set (q.head % C) _)[p % C]?).map _ = _
      rw [List.getElem?_set_ne hslot]
      have hold := hseq p hp1' hp2'
      unfold seqAt at hold
      rw [hold]
      show some (if p < q.head then p + 1 else p) = some (if p < q.head + 1 then p + 1 else p)
      have : (if p < q.head + 1 then p + 1 else p) = (if p < q.head then p + 1 else p) := by
        split_ifs <;> omega
      rw [this]
  · have hfull : q.head = q.tail + C := by omega
    rw [push_eval_full x hC ⟨hbm, hlen, hth, hht, hseq⟩ hfull] at h
    injection h with h1
    injection h1 with hr hq'
    subst hq'
    exact ⟨hbm, hlen, hth, hht, hseq⟩

/-- A completed Pop preserves the invariant (capacity at least 2). -/
theorem inv_pop {T : Type} {C : Nat} (hC : 2 ≤ C) {q : MpscQueue T}
    {r : Expected T QueueState} {q' : MpscQueue T} (hInv : Inv C q)
    (h : Pop q = some (r, q')) : Inv C q' := by
  obtain ⟨hbm, hlen, hth, hht, hseq⟩ := hInv
  by_cases hne : q.tail < q.head
  · obtain ⟨cell, hcell, heval⟩ :=
      pop_eval_nonempty ⟨hbm, hlen, hth, hht, hseq⟩ (by omega) hne
    rw [heval] at h
    injection h with h1
    injection h1 with hr hq'
    subst hq'
    refine ⟨hbm, by rw [List.length_set]; exact hlen,
      show q.tail + 1 ≤ q.head by omega,
      show q.head ≤ q.tail + 1 + C by omega, ?_⟩
    intro p hp1 hp2
    have hp1w : q.tail + 1 ≤ p := hp1
    have hp2w : p < q.tail + 1 + C := hp2
    by_cases hpc : p = q.tail + C
    · subst hpc
      have hidx : q.tail % C < q.data.length := by
        rw [hlen]
        exact Nat.mod_lt _ (by omega)
      have hslot : (q.tail + C) % C = q.tail % C := Nat.add_mod_right q.tail C
      unfold seqAt
      show ((q.data.set (q.tail % C) _)[(q.tail + C) % C]?).map _ = _
      rw [hslot, List.getElem?_set_eq_of_lt _ hidx]
      show _ = some (if q.tail + C < q.head then q.tail + C + 1 else q.tail + C)
      rw [if_neg (show ¬ (q.tail + C < q.head) by omega)]
      rfl
    · have hp1' : q.tail ≤ p := by omega
      have hp2' : p < q.tail + C := by omega
      have hslot : q.tail % C ≠ p % C := fun hcon => by
        have := window_mod_inj (Nat.le_refl q.tail) (show q.tail < q.tail + C by omega)
          hp1' hp2' hcon
        omega
      unfold seqAt
      show ((q.data.set (q.tail % C) _)[p % C]?).map _ = _
      rw [List.getElem?_set_ne hslot]
      have hold := hseq p hp1' hp2'
      unfold seqAt at hold
      rw [hold]
  · have hempty : q.head = q.tail := by omega
    rw [pop_eval_empty ⟨hbm, hlen, hth, hht, hseq⟩ (by omega) hempty] at h
    injection h with h1
    injection h1 with hr hq'
    subst hq'
    exact ⟨hbm, hlen, hth, hht, hseq⟩

/-- Every reachable state of a queue of capacity at least 2 satisfies the
invariant. -/
theorem reachable_inv {T : Type} {C : Nat} {d : T} (hC : 2 ≤ C)
    {q : MpscQueue T} (hq : Reachable C d q) : Inv C q := by
  induction hq with
  | start => exact inv_mk T C d
  | step_push _ h ih => exact inv_push hC ih h
  | step_pop _ h ih => exact inv_pop hC ih h

/-- Counterexample to C7 as stated: the constructor accepts capacity C = 1,
and on a capacity-1 queue two completed PushBack calls reach a state with
head = 2 and tail = 0, so head - tail = 2 does not lie in [0, C] = [0, 1].
(At capacity 1 a full-queue push observes diff = 0 and overwrites.) -/
theorem capacity1_head_tail_bound_fails :
    Reachable 1 (0 : Nat) (⟨1, [⟨1, 2⟩], 2, 0, 2, 0⟩ : MpscQueue Nat) ∧
    ¬((⟨1, [⟨1, 2⟩], 2, 0, 2, 0⟩ : MpscQueue Nat).head -
        (⟨1, [⟨1, 2⟩], 2, 0, 2, 0⟩ : MpscQueue Nat).tail ≤ 1) := by
  constructor
  · exact @Reachable.step_push Nat 1 0
      (⟨1, [⟨0, 1⟩], 1, 0, 1, 0⟩ : MpscQueue Nat)
      (⟨1, [⟨1, 2⟩], 2, 0, 2, 0⟩ : MpscQueue Nat) 1 QueueState.SUCCESS
      (@Reachable.step_push Nat 1 0 (mkMpscQueue Nat 1 0)
        (⟨1, [⟨0, 1⟩], 1, 0, 1, 0⟩ : MpscQueue Nat) 0 QueueState.SUCCESS
        Reachable.start (by decide))
      (by decide)
  · decide

/-- C7 as amended: for every capacity C ≥ 2, every state reachable from a
freshly constructed queue by completed PushBack and Pop calls satisfies
tail ≤ head ≤ tail + C; Pop returns QUEUE_IS_EMPTY (leaving the state
unchanged) exactly when head = tail, and PushBack returns QUEUE_IS_FULL
(leaving the state unchanged) exactly when head = tail + C. At capacity 1
the bound fails, see the counterexample. -/
theorem head_tail_window_invariant {T : Type} (C : Nat) (hC : 2 ≤ C) (d : T)
    (q : MpscQueue T) (hq : Reachable C d q) (x : T) :
    q.tail ≤ q.head ∧ q.head ≤ q.tail + C ∧
    (Pop q = some (Expected.err QueueState.QUEUE_IS_EMPTY, q) ↔ q.head = q.tail) ∧
    (PushBack q x = some (QueueState.QUEUE_IS_FULL, q) ↔ q.head = q.tail + C) := by
  obtain ⟨hbm, hlen, hth, hht, hseq⟩ := reachable_inv hC hq
  refine ⟨hth, hht, ⟨?_, ?_⟩, ⟨?_, ?_⟩⟩
  · intro hpop
    by_contra hne
    obtain ⟨cell, hcell, heval⟩ :=
      pop_eval_nonempty ⟨hbm, hlen, hth, hht, hseq⟩ (by omega) (by omega)
    rw [heval] at hpop
    simp at hpop
  · intro hempty
    exact pop_eval_empty ⟨hbm, hlen, hth, hht, hseq⟩ (by omega) hempty
  · intro hpush
    by_contra hne
    rw [push_eval_notfull x ⟨hbm, hlen, hth, hht, hseq⟩ (by omega)] at hpush
    simp at hpush
  · intro hfull
    exact push_eval_full x hC ⟨hbm, hlen, hth, hht, hseq⟩ hfull

/-- Witness for the amended C7 at the concrete input C = 2, on the freshly
constructed queue. -/
theorem head_tail_window_invariant_witness :
    (mkMpscQueue Nat 2 0).tail ≤ (mkMpscQueue Nat 2 0).head ∧
    (mkMpscQueue Nat 2 0).head ≤ (mkMpscQueue Nat 2 0).tail + 2 ∧
    (Pop (mkMpscQueue Nat 2 0) =
        some (Expected.err QueueState.QUEUE_IS_EMPTY, mkMpscQueue Nat 2 0) ↔
      (mkMpscQueue Nat 2 0).head = (mkMpscQueue Nat 2 0).tail) ∧
    (PushBack (mkMpscQueue Nat 2 0) 5 =
        some (QueueState.QUEUE_IS_FULL, mkMpscQueue Nat 2 0) ↔
      (mkMpscQueue Nat 2 0).head = (mkMpscQueue Nat 2 0).tail + 2) :=
  head_tail_window_invariant 2 (by omega) 0 (mkMpscQueue Nat 2 0) Reachable.start 5

/-- C6: on a queue of capacity C, every successful Pop dequeues the logical
position pos = tail, advances tail to pos + 1, and stores pos + C into the
sequence word of the physical slot pos % C before returning — the source
stores pos + m_buffer_mask, and m_buffer_mask holds C — re-arming the slot
for its next logical position pos + C. -/
theorem Pop_rearms_slot {T : Type} {C : Nat} {d : T} {q : MpscQueue T}
    (hq : Reachable C d q) {v : T} {q' : MpscQueue T}
    (h : Pop q = some (Expected.val v, q')) :
    seqAt q' (q.tail % C) = some (q.tail + C) ∧ q'.tail = q.tail + 1 := by
  have hbm := hq.buffer_mask_eq
  subst hbm
  cases hg : q.data[q.tail % q.buffer_mask]? with
  | none => simp [Pop, hg] at h
  | some cell =>
    simp only [Pop, hg, Option.some_bind] at h
    split at h
    · injection h with h1
      injection h1 with hv hq'
      subst hq'
      refine ⟨?_, rfl⟩
      unfold seqAt
      show ((q.data.set (q.tail % q.buffer_mask) _)[q.tail % q.buffer_mask]?).map _ = _
      rw [List.getElem?_set_self', hg]
      rfl
    · split at h
      · exact absurd h (by simp)
      · exact absurd h (by simp)

/-- Witness for C6: on the concrete capacity-2 queue holding one element,
Pop succeeds and the dequeued slot 0 is re-armed with sequence 0 + 2. -/
theorem Pop_rearms_slot_witness :
    seqAt (⟨2, [⟨5, 2⟩, ⟨0, 1⟩], 1, 1, 1, 1⟩ : MpscQueue Nat) (0 % 2) = some (0 + 2) ∧
    (⟨2, [⟨5, 2⟩, ⟨0, 1⟩], 1, 1, 1, 1⟩ : MpscQueue Nat).tail = 0 + 1 :=
  @Pop_rearms_slot Nat 2 0 (⟨2, [⟨5, 1⟩, ⟨0, 1⟩], 1, 0, 1, 0⟩ : MpscQueue Nat)
    (@Reachable.step_push Nat 2 0 (mkMpscQueue Nat 2 0)
      (⟨2, [⟨5, 1⟩, ⟨0, 1⟩], 1, 0, 1, 0⟩ : MpscQueue Nat) 5 QueueState.SUCCESS
      Reachable.start (by decide))
    5 (⟨2, [⟨5, 2⟩, ⟨0, 1⟩], 1, 1, 1, 1⟩ : MpscQueue Nat) (by decide)

/-- Minimal model of the nlohmann::json values handled by the result sink:
null, numbers, strings, arrays and objects (ordered key/value lists). -/
inductive Json : Type where
  | null : Json
  | num : Int → Json
  | str : String → Json
  | arr : List Json → Json
  | obj : List (String × Json) → Json

/-- The assignment j[k] = v of nlohmann::json: on an object the value at key
k is replaced, or the key appended when absent; on null (a fresh json) the
result is the one-key object. -/
def Json.setField : Json → String → Json → Json
  | Json.obj fields, k, v =>
    if (fields.map Prod.fst).contains k then
      Json.obj (fields.map fun kv => if kv.1 = k then (k, v) else kv)
    else
      Json.obj (fields ++ [(k, v)])
  | _, k, v => Json.obj [(k, v)]

/-- SaveBenchmarkResults from benchmarks/mpsc_queue_benchmark.cpp:
finalBenchmarkResults starts null; its benchmarkResults field is assigned
the single new run record; when the results file exists its contents are
read into a local existingBenchmarkResults that is never used afterwards;
the cpuInfo field is assigned; and the file is overwritten with
finalBenchmarkResults, which the model returns as the new file content. -/
def SaveBenchmarkResults (existingFile : Option Json) (benchmarkResult : Json)
    (cpuInfo : Json) : Json :=
  let finalBenchmarkResults := Json.null
  let finalBenchmarkResults :=
    Json.setField finalBenchmarkResults "benchmarkResults" benchmarkResult
  let existingBenchmarkResults := existingFile
  let finalBenchmarkResults :=
    Json.setField finalBenchmarkResults "cpuInfo" cpuInfo
  finalBenchmarkResults

/-- A previously written results file holding one run record. -/
def priorRun : Json :=
  Json.obj [("producerCount", Json.num 1), ("queueSize", Json.num 2048),
    ("totalPops", Json.num 100), ("successfulPops", Json.num 90)]

/-- The run record of the new benchmark run being saved. -/
def newRun : Json :=
  Json.obj [("producerCount", Json.num 2), ("queueSize", Json.num 2048),
    ("totalPops", Json.num 200), ("successfulPops", Json.num 150)]

/-- The existing results file: one prior run under benchmarkResults. -/
def priorFile : Json :=
  Json.obj [("benchmarkResults", Json.arr [priorRun]), ("cpuInfo", Json.str "cpu")]

/-- Evaluation of C5 at a failing input: saving a new run over an existing
results file that holds a prior run overwrites the file with an object whose
benchmarkResults field is just the new record — the prior run record, read
into an unused local, is not preserved, and nothing is appended to a list of
runs. -/
theorem SaveBenchmarkResults_drops_previous_runs :
    SaveBenchmarkResults (some priorFile) newRun (Json.str "cpu") =
      Json.obj [("benchmarkResults", newRun), ("cpuInfo", Json.str "cpu")] ∧
    SaveBenchmarkResults (some priorFile) newRun (Json.str "cpu") ≠
      Json.obj [("benchmarkResults", Json.arr [priorRun, newRun]),
        ("cpuInfo", Json.str "cpu")] := by
  constructor
  · rfl
  · intro h
    have h' : Json.obj [("benchmarkResults", newRun), ("cpuInfo", Json.str "cpu")] =
        Json.obj [("benchmarkResults", Json.arr [priorRun, newRun]),
          ("cpuInfo", Json.str "cpu")] := h
    simp [newRun] at h'

end Sigmax
